import Mathlib

/-!
Shallow embedding of `kmapper/cover.py` (class `Cover`): the covering
scheme of kepler-mapper.  A data table is a list of rows; each row is its
opaque identifier (the first column) together with the list of lens
coordinates (the remaining columns).  Machine floats are modelled by exact
rationals; numpy's elementwise array operations become `List.zipWith`
operations, and the instance attributes written by `define_bins` and read
by `find_entries` become `Option`-valued fields of an explicit
`CoverState` record that is threaded through the calls.
-/

namespace KMCover

/-- A data row: `(identifier, lens coordinates)`.  The identifier is the
first column of the numpy array, the lens coordinates are the rest. -/
abbrev Row : Type := ℚ × List ℚ

abbrev Data : Type := List Row

/-- The `j`-th lens coordinate of a row (column `j+1` of the array). -/
def lens (r : Row) (j : ℕ) : ℚ := r.2.getD j 0

/-- Number of columns of the array (identifier column included):
`data.shape[1]`. -/
def nColsData : Data → ℕ
  | [] => 1
  | r :: _ => 1 + r.2.length

/-- `np.min(indexless_data, axis=0)` for lens column `j`. -/
def colMin : Data → ℕ → ℚ
  | [], _ => 0
  | r :: rs, j => rs.foldl (fun m s => min m (lens s j)) (lens r j)

/-- `np.max(indexless_data, axis=0)` for lens column `j`. -/
def colMax : Data → ℕ → ℚ
  | [], _ => 0
  | r :: rs, j => rs.foldl (fun m s => max m (lens s j)) (lens r j)

/-- `np.clip(v, a_min, a_max) = np.minimum(a_max, np.maximum(v, a_min))`. -/
def clip (v lo hi : ℚ) : ℚ := min hi (max lo v)

/-- The mutable state of a `Cover` object.  `n_cubes` is either the scalar
or the per-dimension list; `limits` entries use `none` for the
`np.float("inf")` marker.  The six geometry attributes written by
`define_bins` (`base_dist`, `overlap_dist`, `chunk_dist`, `d`, `end`,
`di`) start out absent on a fresh object. -/
structure CoverState where
  n_cubes : ℕ ⊕ List ℕ
  perc_overlap : ℚ
  limits : Option (List (Option ℚ × Option ℚ))
  base_dist : Option (List ℚ)
  overlap_dist : Option (List ℚ)
  chunk_dist : Option (List ℚ)
  d : Option (List ℚ)
  endp : Option (List ℚ)
  di : Option (List ℕ)
  deriving DecidableEq, Repr

/-- Python truthiness of an `n_cubes`-typed value: a nonzero integer or a
nonempty list. -/
def truthyCubes : ℕ ⊕ List ℕ → Bool
  | .inl n => n != 0
  | .inr l => !l.isEmpty

/-- `Cover.__init__`: resolves the deprecated synonyms `nr_cubes` /
`overlap_perc` by Python truthiness (`nr_cubes if nr_cubes else n_cubes`)
and reports whether the deprecation warning was emitted (it is emitted
whenever either synonym is not `None`). -/
def coverInit (n_cubes : ℕ ⊕ List ℕ) (perc_overlap : ℚ)
    (limits : Option (List (Option ℚ × Option ℚ)))
    (nr_cubes : Option (ℕ ⊕ List ℕ)) (overlap_perc : Option ℚ) :
    CoverState × Bool :=
  let nc := match nr_cubes with
    | some v => if truthyCubes v then v else n_cubes
    | none => n_cubes
  let po := match overlap_perc with
    | some q => if q = 0 then perc_overlap else q
    | none => perc_overlap
  let warned := overlap_perc.isSome || nr_cubes.isSome
  (⟨nc, po, limits, none, none, none, none, none, none⟩, warned)

/-- Failures `define_bins` can raise. -/
inductive BinsError where
  /-- `np.min` / `np.max` of a zero-size array raises `ValueError`. -/
  | emptyData
  /-- numpy shape-mismatch `ValueError` (non-broadcastable operands). -/
  | broadcastError
  /-- the assert naming the supplied length and the needed dimension
  count. -/
  | configLenMismatch (supplied needed : ℕ)
  deriving DecidableEq, Repr

instance instDecEqExcept {e a : Type} [DecidableEq e] [DecidableEq a] :
    DecidableEq (Except e a) := fun x y =>
  match x, y with
  | .ok u, .ok v => if h : u = v then .isTrue (by rw [h]) else .isFalse (by simp [h])
  | .error u, .error v => if h : u = v then .isTrue (by rw [h]) else .isFalse (by simp [h])
  | .ok _, .error _ => .isFalse (by simp)
  | .error _, .ok _ => .isFalse (by simp)

/-- What one call of `define_bins` produces: the updated object state, the
flag of the bounds-coverage warning, and either the coordinate list or the
exception. -/
structure BinsResult where
  state : CoverState
  warned : Bool
  out : Except BinsError (List (List ℕ))
  deriving DecidableEq, Repr

/-- `itertools.product(*(range(i) for i in cubes))`, first factor varying
slowest, each tuple as a list. -/
def cartProd : List ℕ → List (List ℕ)
  | [] => [[]]
  | c :: cs => (List.range c).flatMap (fun i => (cartProd cs).map (fun t => i :: t))

/-- `(bounds[1] - bounds[0]) / self.n_cubes` when `n_cubes` is a list:
numpy broadcasting of shapes `(xs.length,)` and `(ys.length,)`. -/
def broadcastDiv (xs : List ℚ) (ys : List ℕ) : Except BinsError (List ℚ) :=
  if xs.length = ys.length then
    .ok (List.zipWith (fun (x : ℚ) (y : ℕ) => x / (y : ℚ)) xs ys)
  else if ys.length = 1 then
    .ok (xs.map (fun x => x / ((ys.getD 0 1 : ℕ) : ℚ)))
  else if xs.length = 1 then
    .ok (ys.map (fun (y : ℕ) => xs.getD 0 0 / (y : ℚ)))
  else .error .broadcastError

/-- `Cover.define_bins(data)`.  Mirrors the source step by step:
strip the identifier column; resolve the bounds from `self.limits`
(substituting the per-column data minimum / maximum for `inf` markers,
and overwriting the `inf` entries of `self.limits` with `0` in place);
emit the coverage warning when neither `(min >= lower).all()` nor
`(max <= upper).all()` holds; set `base_dist`, `overlap_dist`,
`chunk_dist`, `d`, `end`, `di` on the object; check a list-valued
`n_cubes` against the dimension count; and return the Cartesian product
of the per-dimension ranges. -/
def define_bins (s : CoverState) (dta : Data) : BinsResult :=
  match dta with
  | [] => ⟨s, false, .error .emptyData⟩
  | _ :: _ =>
    let dims := nColsData dta - 1
    let mins := (List.range dims).map (fun j => colMin dta j)
    let maxs := (List.range dims).map (fun j => colMax dta j)
    let resolved : Except BinsError ((List ℚ × List ℚ) ×
        Option (List (Option ℚ × Option ℚ)) × Bool) :=
      match s.limits with
      | some L =>
        if L.length = dims then
          let lowers := List.zipWith (fun pr m => pr.1.getD m) L mins
          let uppers := List.zipWith (fun pr m => pr.2.getD m) L maxs
          let mutated := L.map (fun pr => (some (pr.1.getD 0), some (pr.2.getD 0)))
          let w := !((List.zipWith (fun m lo => decide (lo ≤ m)) mins lowers).all id
                     || (List.zipWith (fun mx hi => decide (mx ≤ hi)) maxs uppers).all id)
          .ok ((lowers, uppers), some mutated, w)
        else .error .broadcastError
      | none => .ok ((mins, maxs), none, false)
    match resolved with
    | .error e => ⟨s, false, .error e⟩
    | .ok ((lowers, uppers), newLimits, w) =>
      let s1 := { s with limits := newLimits }
      let diff := List.zipWith (fun u l => u - l) uppers lowers
      let baseE : Except BinsError (List ℚ) :=
        match s.n_cubes with
        | .inl n => .ok (diff.map (fun x => x / (n : ℚ)))
        | .inr l => broadcastDiv diff l
      match baseE with
      | .error e => ⟨s1, w, .error e⟩
      | .ok base =>
        let overlap := base.map (fun b => s.perc_overlap * b)
        let chunk := List.zipWith (fun b o => b + o * 2) base overlap
        let diList := (List.range dims).map (fun j => j + 1)
        let s2 := { s1 with
          base_dist := some base
          overlap_dist := some overlap
          chunk_dist := some chunk
          d := some lowers
          endp := some uppers
          di := some diList }
        match s.n_cubes with
        | .inl n => ⟨s2, w, .ok (cartProd (List.replicate dims n))⟩
        | .inr l =>
          if l.length = dims then ⟨s2, w, .ok (cartProd l)⟩
          else ⟨s2, w, .error (.configLenMismatch l.length dims)⟩

/-- Failures `find_entries` can raise. -/
inductive FindError where
  /-- reading a geometry attribute never written by `define_bins`. -/
  | attributeError
  deriving DecidableEq, Repr

/-- The full field list of a row as stored in the array:
identifier first, then the lens coordinates. -/
def fullRow (r : Row) : List ℚ := r.1 :: r.2

/-- `Cover.find_entries(data, cube)`: compute the unclipped bin interval
`[d + cube*base - overlap, d + cube*base - overlap + chunk]`, clip it to
`[d, end]`, and keep the rows of `data` whose selected columns
(`data[:, di]`) lie inside the clipped interval on every dimension. -/
def find_entries (s : CoverState) (dta : Data) (cube : List ℕ) :
    Except FindError Data :=
  match s.base_dist, s.overlap_dist, s.chunk_dist, s.d, s.endp, s.di with
  | some base, some overlap, some chunk, some dv, some ev, some diList =>
    let cb := List.zipWith (fun (c : ℕ) (b : ℚ) => (c : ℚ) * b) cube base
    let lowerU := List.zipWith (fun x o => x - o) (List.zipWith (· + ·) dv cb) overlap
    let upperU := List.zipWith (· + ·) lowerU chunk
    let lowerB := List.zipWith (fun v pr => clip v pr.1 pr.2) lowerU (dv.zip ev)
    let upperB := List.zipWith (fun v pr => clip v pr.1 pr.2) upperU (dv.zip ev)
    let keep := fun (r : Row) =>
      (List.zipWith (fun (x : ℚ) (pr : ℚ × ℚ) => decide (pr.1 ≤ x ∧ x ≤ pr.2))
        (diList.map (fun i => (fullRow r).getD i 0)) (lowerB.zip upperB)).all id
    .ok (dta.filter keep)
  | _, _, _, _, _, _ => .error .attributeError

attribute [local semireducible] Rat.mul Rat.inv Rat.add Rat.sub

/-- Number of lens dimensions of a data table: columns minus the
identifier column. -/
def dimsOf (dta : Data) : ℕ := nColsData dta - 1

/-- The cube-count list `define_bins` works with: the scalar replicated
over every dimension, or the per-dimension list as given. -/
def resolvedCubes (s : CoverState) (dims : ℕ) : List ℕ :=
  match s.n_cubes with
  | .inl n => List.replicate dims n
  | .inr l => l

/-- Mixed-radix decoding of a flat index into a bin coordinate, the first
(outer) dimension varying slowest. -/
def specCoord : List ℕ → ℕ → List ℕ
  | [], _ => []
  | _ :: cs, k => k / cs.prod :: specCoord cs (k % cs.prod)

theorem range_mul_eq (c P : ℕ) :
    List.range (c * P) =
      (List.range c).flatMap (fun i => (List.range P).map (fun r => i * P + r)) := by
  induction c with
  | zero => simp
  | succ c ih =>
      rw [Nat.succ_mul, List.range_add, ih, List.range_succ, List.flatMap_append]
      simp

theorem cartProd_eq_map_range (cs : List ℕ) :
    cartProd cs = (List.range cs.prod).map (specCoord cs) := by
  induction cs with
  | nil => simp [cartProd, specCoord]
  | cons c cs ih =>
      rw [cartProd, ih, List.prod_cons, range_mul_eq, List.map_flatMap]
      congr 1
      funext i
      rw [List.map_map, List.map_map]
      refine List.map_congr_left ?_
      intro r hr
      have hrP : r < cs.prod := List.mem_range.mp hr
      have hP : 0 < cs.prod := Nat.lt_of_le_of_lt (Nat.zero_le r) hrP
      simp only [Function.comp]
      rw [specCoord]
      have h1 : (i * cs.prod + r) / cs.prod = i := by
        rw [Nat.add_comm, Nat.add_mul_div_right _ _ hP, Nat.div_eq_of_lt hrP,
          Nat.zero_add]
      have h2 : (i * cs.prod + r) % cs.prod = r := by
        rw [Nat.add_comm, Nat.add_mul_mod_self_right, Nat.mod_eq_of_lt hrP]
      rw [h1, h2]

theorem length_cartProd (cs : List ℕ) : (cartProd cs).length = cs.prod := by
  rw [cartProd_eq_map_range, List.length_map, List.length_range]

theorem mem_cartProd (cs : List ℕ) (t : List ℕ) :
    t ∈ cartProd cs ↔ List.Forall₂ (· < ·) t cs := by
  induction cs generalizing t with
  | nil =>
      simp [cartProd, List.forall₂_nil_right_iff]
  | cons c cs ih =>
      rw [cartProd]
      constructor
      · intro ht
        rcases List.mem_flatMap.mp ht with ⟨i, hi, hm⟩
        rcases List.mem_map.mp hm with ⟨u, hu, rfl⟩
        exact List.Forall₂.cons (List.mem_range.mp hi) ((ih u).mp hu)
      · intro ht
        cases ht with
        | cons hic hrest =>
            refine List.mem_flatMap.mpr ⟨_, List.mem_range.mpr hic, ?_⟩
            exact List.mem_map.mpr ⟨_, (ih _).mpr hrest, rfl⟩

theorem cartProd_replicate_one (m : ℕ) :
    cartProd (List.replicate m 1) = [List.replicate m 0] := by
  induction m with
  | zero => rfl
  | succ m ih =>
      simp only [List.replicate_succ, cartProd, ih, List.map_cons, List.map_nil]
      rfl

theorem cube_length_of_mem_cartProd (cs : List ℕ) (t : List ℕ)
    (h : t ∈ cartProd cs) : t.length = cs.length :=
  ((mem_cartProd cs t).mp h).length_eq

/-- Fusing two elementwise maps of the same list into one. -/
theorem zipWith_map_same {α β γ δ : Type} (f : β → γ → δ) (g : α → β)
    (h : α → γ) (l : List α) :
    List.zipWith f (l.map g) (l.map h) = l.map (fun x => f (g x) (h x)) := by
  induction l with
  | nil => rfl
  | cons a l ih => simp [ih]

theorem getD_zipWith {α β γ : Type} (f : α → β → γ) (xs : List α)
    (ys : List β) (j : ℕ) (da : α) (db : β) (dc : γ)
    (hx : j < xs.length) (hy : j < ys.length) :
    (List.zipWith f xs ys).getD j dc = f (xs.getD j da) (ys.getD j db) := by
  have hz : j < (List.zipWith f xs ys).length := by
    rw [List.length_zipWith]; exact lt_min hx hy
  rw [List.getD_eq_getElem _ _ hz, List.getD_eq_getElem _ _ hx,
    List.getD_eq_getElem _ _ hy, List.getElem_zipWith]

theorem getD_map {α β : Type} (f : α → β) (xs : List α) (j : ℕ) (da : α)
    (db : β) (hx : j < xs.length) :
    (xs.map f).getD j db = f (xs.getD j da) := by
  have hm : j < (xs.map f).length := by rw [List.length_map]; exact hx
  rw [List.getD_eq_getElem _ _ hm, List.getD_eq_getElem _ _ hx, List.getElem_map]

theorem getD_range_map {α : Type} (f : ℕ → α) (n j : ℕ) (d : α) (hj : j < n) :
    ((List.range n).map f).getD j d = f j := by
  have hr : j < (List.range n).length := by rwa [List.length_range]
  rw [getD_map f _ j 0 d hr, List.getD_eq_getElem _ _ hr, List.getElem_range]

/-- `all id` of an elementwise comparison, as a bounded quantifier over the
common index range. -/
theorem all_zipWith_iff {α β : Type} (f : α → β → Bool) (xs : List α)
    (ys : List β) (n : ℕ) (da : α) (db : β)
    (hx : xs.length = n) (hy : ys.length = n) :
    (List.zipWith f xs ys).all id = true ↔
      ∀ j < n, f (xs.getD j da) (ys.getD j db) = true := by
  induction n generalizing xs ys with
  | zero =>
      rcases List.length_eq_zero.mp hx with rfl
      rcases List.length_eq_zero.mp hy with rfl
      simp
  | succ n ih =>
      rcases xs with _ | ⟨x, xs⟩
      · simp at hx
      rcases ys with _ | ⟨y, ys⟩
      · simp at hy
      simp only [List.length_cons, Nat.succ.injEq] at hx hy
      rw [List.zipWith_cons_cons, List.all_cons, Bool.and_eq_true, id_eq,
        ih xs ys hx hy]
      constructor
      · rintro ⟨h0, hrest⟩ j hj
        cases j with
        | zero => simpa using h0
        | succ j => simpa using hrest j (Nat.lt_of_succ_lt_succ hj)
      · intro h
        refine ⟨by simpa using h 0 (Nat.succ_pos n), fun j hj => ?_⟩
        simpa using h (j + 1) (Nat.succ_lt_succ hj)

theorem foldl_min_le {α : Type} (val : α → ℚ) (l : List α) (a : ℚ) :
    l.foldl (fun m s => min m (val s)) a ≤ a ∧
      ∀ r ∈ l, l.foldl (fun m s => min m (val s)) a ≤ val r := by
  induction l generalizing a with
  | nil => simp
  | cons b l ih =>
      refine ⟨le_trans (ih (min a (val b))).1 (min_le_left _ _), ?_⟩
      intro r hr
      rcases List.mem_cons.mp hr with rfl | hr
      · exact le_trans (ih (min a (val r))).1 (min_le_right _ _)
      · exact (ih (min a (val b))).2 r hr

theorem le_foldl_max {α : Type} (val : α → ℚ) (l : List α) (a : ℚ) :
    a ≤ l.foldl (fun m s => max m (val s)) a ∧
      ∀ r ∈ l, val r ≤ l.foldl (fun m s => max m (val s)) a := by
  induction l generalizing a with
  | nil => simp
  | cons b l ih =>
      refine ⟨le_trans (le_max_left _ _) (ih (max a (val b))).1, ?_⟩
      intro r hr
      rcases List.mem_cons.mp hr with rfl | hr
      · exact le_trans (le_max_right _ _) (ih (max a (val r))).1
      · exact (ih (max a (val b))).2 r hr

theorem colMin_le_lens (dta : Data) (j : ℕ) (r : Row) (hr : r ∈ dta) :
    colMin dta j ≤ lens r j := by
  rcases dta with _ | ⟨a, l⟩
  · cases hr
  · rcases List.mem_cons.mp hr with rfl | hr
    · exact (foldl_min_le (fun s => lens s j) l (lens r j)).1
    · exact (foldl_min_le (fun s => lens s j) l (lens a j)).2 r hr

theorem lens_le_colMax (dta : Data) (j : ℕ) (r : Row) (hr : r ∈ dta) :
    lens r j ≤ colMax dta j := by
  rcases dta with _ | ⟨a, l⟩
  · cases hr
  · rcases List.mem_cons.mp hr with rfl | hr
    · exact (le_foldl_max (fun s => lens s j) l (lens r j)).1
    · exact (le_foldl_max (fun s => lens s j) l (lens a j)).2 r hr

theorem colMin_le_colMax (dta : Data) (j : ℕ) (hne : dta ≠ []) :
    colMin dta j ≤ colMax dta j := by
  rcases dta with _ | ⟨a, l⟩
  · exact absurd rfl hne
  · exact le_trans (colMin_le_lens (a :: l) j a (List.mem_cons_self a l))
      (lens_le_colMax (a :: l) j a (List.mem_cons_self a l))

/-- The clipped lower bound of bin `cube` on dimension `j`: the unclipped
value `d[j] + cube[j]*base[j] - overlap[j]` clipped to `[d[j], end[j]]`. -/
def clippedLower (dv ev base overlap : List ℚ) (cube : List ℕ) (j : ℕ) : ℚ :=
  clip (dv.getD j 0 + (cube.getD j 0 : ℚ) * base.getD j 0 - overlap.getD j 0)
    (dv.getD j 0) (ev.getD j 0)

/-- The clipped upper bound of bin `cube` on dimension `j`: the unclipped
lower bound plus `chunk[j]`, clipped to `[d[j], end[j]]`. -/
def clippedUpper (dv ev base overlap chunk : List ℚ) (cube : List ℕ) (j : ℕ) : ℚ :=
  clip (dv.getD j 0 + (cube.getD j 0 : ℚ) * base.getD j 0 - overlap.getD j 0
      + chunk.getD j 0)
    (dv.getD j 0) (ev.getD j 0)

/-- Row membership in a bin: on every dimension the lens coordinate lies
inclusively between the clipped bounds. -/
abbrev inBin (n : ℕ) (dv ev base overlap chunk : List ℚ) (cube : List ℕ)
    (r : Row) : Prop :=
  ∀ j < n, clippedLower dv ev base overlap cube j ≤ lens r j ∧
    lens r j ≤ clippedUpper dv ev base overlap chunk cube j

theorem bool_eq_decide (b : Bool) (p : Prop) [Decidable p]
    (h : b = true ↔ p) : b = decide p := by
  cases b with
  | true => simp [h.mp rfl]
  | false =>
      have hnp : ¬ p := fun hp => by simpa using h.mpr hp
      simp [hnp]

/-- `find_entries` returns exactly the rows whose lens coordinates lie
within the clipped bin bounds on every dimension, keeping identifiers and
input order (it is a filter of the data). -/
theorem find_entries_spec (s : CoverState) (dta : Data) (cube : List ℕ)
    (base overlap chunk dv ev : List ℚ) (n : ℕ)
    (hbs : s.base_dist = some base) (hos : s.overlap_dist = some overlap)
    (hcs : s.chunk_dist = some chunk) (hds : s.d = some dv)
    (hes : s.endp = some ev)
    (hdis : s.di = some ((List.range n).map (fun j => j + 1)))
    (hb : base.length = n) (ho : overlap.length = n) (hc : chunk.length = n)
    (hd : dv.length = n) (he : ev.length = n) (hcu : cube.length = n) :
    find_entries s dta cube =
      .ok (dta.filter (fun r =>
        decide (inBin n dv ev base overlap chunk cube r))) := by
  rw [find_entries, hbs, hos, hcs, hds, hes, hdis]
  refine congrArg Except.ok (List.filter_congr ?_)
  intro r _
  set cb := List.zipWith (fun (c : ℕ) (b : ℚ) => (c : ℚ) * b) cube base with hcb
  set lowerU := List.zipWith (fun x o => x - o)
    (List.zipWith (· + ·) dv cb) overlap with hlu
  set upperU := List.zipWith (· + ·) lowerU chunk with huu
  set lowerB := List.zipWith (fun v pr => clip v pr.1 pr.2)
    lowerU (dv.zip ev) with hlb
  set upperB := List.zipWith (fun v pr => clip v pr.1 pr.2)
    upperU (dv.zip ev) with hub
  have lcb : cb.length = n := by
    rw [hcb, List.length_zipWith, hcu, hb, Nat.min_self]
  have llu : lowerU.length = n := by
    rw [hlu, List.length_zipWith, List.length_zipWith, hd, lcb, ho,
      Nat.min_self, Nat.min_self]
  have luu : upperU.length = n := by
    rw [huu, List.length_zipWith, llu, hc, Nat.min_self]
  have lze : (dv.zip ev).length = n := by
    rw [List.length_zip, hd, he, Nat.min_self]
  have llb : lowerB.length = n := by
    rw [hlb, List.length_zipWith, llu, lze, Nat.min_self]
  have lub : upperB.length = n := by
    rw [hub, List.length_zipWith, luu, lze, Nat.min_self]
  have lsel : (((List.range n).map (fun j => j + 1)).map
      (fun i => (fullRow r).getD i 0)).length = n := by
    rw [List.length_map, List.length_map, List.length_range]
  have lzb : (lowerB.zip upperB).length = n := by
    rw [List.length_zip, llb, lub, Nat.min_self]
  refine bool_eq_decide _ _ ?_
  rw [all_zipWith_iff _ _ _ n 0 (0, 0) lsel lzb]
  refine forall_congr' fun j => ?_
  refine imp_congr_right fun hj => ?_
  have hsel : (((List.range n).map (fun j => j + 1)).map
      (fun i => (fullRow r).getD i 0)).getD j 0 = lens r j := by
    rw [List.map_map, getD_range_map _ n j 0 hj]
    simp [fullRow, lens, Function.comp]
  have hzb : (lowerB.zip upperB).getD j (0, 0) =
      (lowerB.getD j 0, upperB.getD j 0) := by
    rw [List.zip_eq_zipWith,
      getD_zipWith _ _ _ j 0 0 _ (by rw [llb]; exact hj) (by rw [lub]; exact hj)]
  have hze : (dv.zip ev).getD j (0, 0) = (dv.getD j 0, ev.getD j 0) := by
    rw [List.zip_eq_zipWith,
      getD_zipWith _ _ _ j 0 0 _ (by rw [hd]; exact hj) (by rw [he]; exact hj)]
  have hcbj : cb.getD j 0 = (cube.getD j 0 : ℚ) * base.getD j 0 := by
    rw [hcb, getD_zipWith _ _ _ j 0 0 _ (by rw [hcu]; exact hj)
      (by rw [hb]; exact hj)]
  have hluj : lowerU.getD j 0 =
      dv.getD j 0 + (cube.getD j 0 : ℚ) * base.getD j 0 - overlap.getD j 0 := by
    rw [hlu, getD_zipWith _ _ _ j 0 0 _
      (by rw [List.length_zipWith, hd, lcb, Nat.min_self]; exact hj)
      (by rw [ho]; exact hj),
      getD_zipWith _ _ _ j 0 0 _ (by rw [hd]; exact hj) (by rw [lcb]; exact hj),
      hcbj]
  have huuj : upperU.getD j 0 =
      dv.getD j 0 + (cube.getD j 0 : ℚ) * base.getD j 0 - overlap.getD j 0
        + chunk.getD j 0 := by
    rw [huu, getD_zipWith _ _ _ j 0 0 _ (by rw [llu]; exact hj)
      (by rw [hc]; exact hj), hluj]
  have hlbj : lowerB.getD j 0 = clippedLower dv ev base overlap cube j := by
    rw [hlb, getD_zipWith _ _ _ j (0 : ℚ) ((0 : ℚ), (0 : ℚ)) _
      (by rw [llu]; exact hj) (by rw [lze]; exact hj), hze, hluj]
    rfl
  have hubj : upperB.getD j 0 = clippedUpper dv ev base overlap chunk cube j := by
    rw [hub, getD_zipWith _ _ _ j (0 : ℚ) ((0 : ℚ), (0 : ℚ)) _
      (by rw [luu]; exact hj) (by rw [lze]; exact hj), hze, huuj]
    rfl
  rw [hsel, hzb, hlbj, hubj, decide_eq_true_eq]

/-- Per-dimension data minima, as computed by `define_bins`. -/
def colsMin (dta : Data) : List ℚ :=
  (List.range (dimsOf dta)).map (fun j => colMin dta j)

/-- Per-dimension data maxima, as computed by `define_bins`. -/
def colsMax (dta : Data) : List ℚ :=
  (List.range (dimsOf dta)).map (fun j => colMax dta j)

/-- `base_dist` in the `limits=None`, scalar `n_cubes` case. -/
def baseNone (n : ℕ) (dta : Data) : List ℚ :=
  (List.range (dimsOf dta)).map (fun j => (colMax dta j - colMin dta j) / (n : ℚ))

/-- `overlap_dist` in the `limits=None`, scalar `n_cubes` case. -/
def ovNone (p : ℚ) (n : ℕ) (dta : Data) : List ℚ :=
  (List.range (dimsOf dta)).map
    (fun j => p * ((colMax dta j - colMin dta j) / (n : ℚ)))

/-- `chunk_dist` in the `limits=None`, scalar `n_cubes` case. -/
def chNone (p : ℚ) (n : ℕ) (dta : Data) : List ℚ :=
  (List.range (dimsOf dta)).map
    (fun j => (colMax dta j - colMin dta j) / (n : ℚ)
      + p * ((colMax dta j - colMin dta j) / (n : ℚ)) * 2)

/-- The stored column-index array `di`. -/
def diListOf (dta : Data) : List ℕ :=
  (List.range (dimsOf dta)).map (fun j => j + 1)

/-- Evaluation of `define_bins` with `limits=None` and scalar `n_cubes`:
bounds are the per-column minima and maxima, the widths are computed from
them, no warning fires, and the coordinates are the Cartesian product of
`dims` copies of `range n`. -/
theorem define_bins_none_inl (n : ℕ) (s : CoverState) (r : Row)
    (rs : List Row) (hlim : s.limits = none) (hnc : s.n_cubes = .inl n) :
    define_bins s (r :: rs) =
      ⟨{ s with
          base_dist := some (baseNone n (r :: rs))
          overlap_dist := some (ovNone s.perc_overlap n (r :: rs))
          chunk_dist := some (chNone s.perc_overlap n (r :: rs))
          d := some (colsMin (r :: rs))
          endp := some (colsMax (r :: rs))
          di := some (diListOf (r :: rs)) },
        false,
        .ok (cartProd (List.replicate (dimsOf (r :: rs)) n))⟩ := by
  simp only [define_bins, hlim, hnc, dimsOf, baseNone, ovNone, chNone,
    colsMin, colsMax, diListOf, zipWith_map_same, List.map_map,
    Function.comp_def]

/-- When both operand lengths equal `n`, a successful broadcast division
returns a list of length `n`. -/
theorem broadcastDiv_ok_length (xs : List ℚ) (ys : List ℕ) (base : List ℚ)
    (n : ℕ) (h : broadcastDiv xs ys = .ok base) (hx : xs.length = n)
    (hy : ys.length = n) : base.length = n := by
  unfold broadcastDiv at h
  split_ifs at h with h1 h2 h3 <;>
    simp only [Except.ok.injEq, reduceCtorEq] at h <;>
    subst h <;>
    simp [List.length_zipWith, hx, hy, Nat.min_self]

/-- Inversion of a successful `define_bins` call: all six geometry
attributes are set, their lengths equal the dimension count, and the
output is the Cartesian product of the resolved per-dimension cube
counts, whose length matches the dimension count. -/
theorem define_bins_ok_inv (s s1 : CoverState) (w : Bool)
    (coords : List (List ℕ)) (dta : Data)
    (h : define_bins s dta = ⟨s1, w, .ok coords⟩) :
    ∃ base overlap chunk lowers uppers,
      s1.base_dist = some base ∧ s1.overlap_dist = some overlap ∧
      s1.chunk_dist = some chunk ∧ s1.d = some lowers ∧
      s1.endp = some uppers ∧
      s1.di = some ((List.range (dimsOf dta)).map (fun j => j + 1)) ∧
      base.length = dimsOf dta ∧ overlap.length = dimsOf dta ∧
      chunk.length = dimsOf dta ∧ lowers.length = dimsOf dta ∧
      uppers.length = dimsOf dta ∧
      coords = cartProd (resolvedCubes s (dimsOf dta)) ∧
      (resolvedCubes s (dimsOf dta)).length = dimsOf dta := by
  rcases dta with _ | ⟨r, rs⟩
  · simp [define_bins] at h
  rcases hl : s.limits with _ | L <;> rcases hn : s.n_cubes with n | l
  · -- limits = none, scalar n_cubes
    simp only [define_bins, hl, hn] at h
    simp only [BinsResult.mk.injEq, Except.ok.injEq] at h
    obtain ⟨rfl, rfl, rfl⟩ := h
    refine ⟨_, _, _, _, _, rfl, rfl, rfl, rfl, rfl, rfl, ?_, ?_, ?_, ?_, ?_,
      ?_, ?_⟩ <;>
      simp [dimsOf, resolvedCubes, hn, List.length_zipWith, Nat.min_self]
  · -- limits = none, list n_cubes
    simp only [define_bins, hl, hn] at h
    split at h
    · simp only [BinsResult.mk.injEq, reduceCtorEq, and_false] at h
    · rename_i base heq
      split_ifs at h with h1
      · simp only [BinsResult.mk.injEq, Except.ok.injEq] at h
        obtain ⟨rfl, rfl, rfl⟩ := h
        have hbl : base.length = nColsData (r :: rs) - 1 :=
          broadcastDiv_ok_length _ _ _ _ heq
            (by simp [List.length_zipWith, Nat.min_self]) h1
        refine ⟨_, _, _, _, _, rfl, rfl, rfl, rfl, rfl, rfl, ?_, ?_, ?_, ?_,
          ?_, ?_, ?_⟩ <;>
          simp [dimsOf, resolvedCubes, hn, List.length_zipWith, Nat.min_self,
            hbl, h1]
      · simp only [BinsResult.mk.injEq, reduceCtorEq, and_false] at h
  · -- limits = some L, scalar n_cubes
    simp only [define_bins, hl, hn] at h
    split_ifs at h with h1
    · dsimp only at h
      simp only [BinsResult.mk.injEq, Except.ok.injEq] at h
      obtain ⟨rfl, rfl, rfl⟩ := h
      refine ⟨_, _, _, _, _, rfl, rfl, rfl, rfl, rfl, rfl, ?_, ?_, ?_, ?_, ?_,
        ?_, ?_⟩ <;>
        simp [dimsOf, resolvedCubes, hn, List.length_zipWith, Nat.min_self, h1]
    · dsimp only at h
      simp only [BinsResult.mk.injEq, reduceCtorEq, and_false] at h
  · -- limits = some L, list n_cubes
    simp only [define_bins, hl, hn] at h
    split_ifs at h with h1 h2
    · dsimp only at h
      split at h
      · simp only [BinsResult.mk.injEq, reduceCtorEq, and_false] at h
      · rename_i base heq
        simp only [BinsResult.mk.injEq, Except.ok.injEq] at h
        obtain ⟨rfl, rfl, rfl⟩ := h
        have hbl : base.length = nColsData (r :: rs) - 1 :=
          broadcastDiv_ok_length _ _ _ _ heq
            (by simp [List.length_zipWith, Nat.min_self, h1]) h2
        refine ⟨_, _, _, _, _, rfl, rfl, rfl, rfl, rfl, rfl, ?_, ?_, ?_, ?_,
          ?_, ?_, ?_⟩ <;>
          simp [dimsOf, resolvedCubes, hn, List.length_zipWith,
            Nat.min_self, hbl, h1, h2]
    · dsimp only at h
      split at h
      · simp only [BinsResult.mk.injEq, reduceCtorEq, and_false] at h
      · simp only [BinsResult.mk.injEq, reduceCtorEq, and_false] at h
    · dsimp only at h
      simp only [BinsResult.mk.injEq, reduceCtorEq, and_false] at h
    · dsimp only at h
      simp only [BinsResult.mk.injEq, reduceCtorEq, and_false] at h

/-- C1: for every data table, geometry produced by `define_bins`, and bin
coordinate from its output, `find_entries` returns exactly those rows
whose lens coordinate on every dimension lies inclusively within the
clipped bin bounds (the unclipped interval
`[d + cube*base - overlap, d + cube*base - overlap + chunk]` clipped to
`[d, end]`), the result being a filter of the input: rows keep their
identifier column and their original order. -/
theorem find_entries_rows_within_clipped_bounds
    (s s1 : CoverState) (w : Bool) (coords : List (List ℕ)) (dta : Data)
    (cube : List ℕ) (base overlap chunk dv ev : List ℚ)
    (hdb : define_bins s dta = ⟨s1, w, .ok coords⟩)
    (hcube : cube ∈ coords)
    (hbs : s1.base_dist = some base) (hos : s1.overlap_dist = some overlap)
    (hcs : s1.chunk_dist = some chunk) (hds : s1.d = some dv)
    (hes : s1.endp = some ev) :
    find_entries s1 dta cube =
      .ok (dta.filter (fun r =>
        decide (inBin (dimsOf dta) dv ev base overlap chunk cube r))) := by
  obtain ⟨b2, o2, c2, l2, u2, hb2, ho2, hc2, hd2, he2, hdi2, lb2, lo2, lc2,
    ll2, lu2, hco, hcl⟩ := define_bins_ok_inv s s1 w coords dta hdb
  have hbase : base = b2 := by rw [hbs] at hb2; exact Option.some.inj hb2
  have hover : overlap = o2 := by rw [hos] at ho2; exact Option.some.inj ho2
  have hchunk : chunk = c2 := by rw [hcs] at hc2; exact Option.some.inj hc2
  have hdv : dv = l2 := by rw [hds] at hd2; exact Option.some.inj hd2
  have hev : ev = u2 := by rw [hes] at he2; exact Option.some.inj he2
  subst hbase hover hchunk hdv hev
  have hculen : cube.length = dimsOf dta := by
    rw [hco] at hcube
    rw [cube_length_of_mem_cartProd _ _ hcube, hcl]
  exact find_entries_spec s1 dta cube _ _ _ _ _ (dimsOf dta)
    hbs hos hcs hds hes hdi2 lb2 lo2 lc2 ll2 lu2 hculen

theorem find_entries_rows_within_clipped_bounds_witness :
    find_entries
      ⟨.inl 2, 0, none, some [(1 : ℚ)/2], some [0], some [(1 : ℚ)/2],
        some [0], some [1], some [1]⟩
      [((0 : ℚ), [(0 : ℚ)]), ((1 : ℚ), [(1 : ℚ)])] [0] =
      .ok ([((0 : ℚ), [(0 : ℚ)]), ((1 : ℚ), [(1 : ℚ)])].filter (fun r =>
        decide (inBin (dimsOf [((0 : ℚ), [(0 : ℚ)]), ((1 : ℚ), [(1 : ℚ)])])
          [0] [1] [(1 : ℚ)/2] [0] [(1 : ℚ)/2] [0] r))) :=
  find_entries_rows_within_clipped_bounds
    (coverInit (.inl 2) 0 none none none).1
    ⟨.inl 2, 0, none, some [(1 : ℚ)/2], some [0], some [(1 : ℚ)/2],
      some [0], some [1], some [1]⟩
    false [[0], [1]]
    [((0 : ℚ), [(0 : ℚ)]), ((1 : ℚ), [(1 : ℚ)])] [0]
    [(1 : ℚ)/2] [0] [(1 : ℚ)/2] [0] [1]
    (by decide) (by decide) rfl rfl rfl rfl rfl

/-- C2: a successful `define_bins` call returns one coordinate per bin —
their number is the product of the per-dimension cube counts — and the
list enumerates the full Cartesian product of `range(n_cubes_for_dim)` in
the fixed mixed-radix order in which the first (outer) dimension varies
slowest: position `k` holds the mixed-radix digits of `k`. -/
theorem define_bins_cartesian_enumeration
    (s s1 : CoverState) (w : Bool) (coords : List (List ℕ)) (dta : Data)
    (hdb : define_bins s dta = ⟨s1, w, .ok coords⟩) :
    coords.length = (resolvedCubes s (dimsOf dta)).prod ∧
    coords = (List.range ((resolvedCubes s (dimsOf dta)).prod)).map
      (specCoord (resolvedCubes s (dimsOf dta))) ∧
    ∀ t, t ∈ coords ↔ List.Forall₂ (· < ·) t (resolvedCubes s (dimsOf dta)) := by
  obtain ⟨_, _, _, _, _, _, _, _, _, _, _, _, _, _, _, _, hco, _⟩ :=
    define_bins_ok_inv s s1 w coords dta hdb
  subst hco
  exact ⟨length_cartProd _, cartProd_eq_map_range _,
    fun t => mem_cartProd _ t⟩

theorem define_bins_cartesian_enumeration_witness :
    [[0, 0], [0, 1], [0, 2], [1, 0], [1, 1], [1, 2]].length =
      (resolvedCubes ⟨.inr [2, 3], 2/10, none, none, none, none, none,
        none, none⟩
        (dimsOf [((0 : ℚ), [(0 : ℚ), (0 : ℚ)]),
          ((1 : ℚ), [(1 : ℚ), (1 : ℚ)])])).prod ∧
    [[0, 0], [0, 1], [0, 2], [1, 0], [1, 1], [1, 2]] =
      (List.range ((resolvedCubes ⟨.inr [2, 3], 2/10, none, none, none,
        none, none, none, none⟩
        (dimsOf [((0 : ℚ), [(0 : ℚ), (0 : ℚ)]),
          ((1 : ℚ), [(1 : ℚ), (1 : ℚ)])])).prod)).map
        (specCoord (resolvedCubes ⟨.inr [2, 3], 2/10, none, none, none,
          none, none, none, none⟩
          (dimsOf [((0 : ℚ), [(0 : ℚ), (0 : ℚ)]),
            ((1 : ℚ), [(1 : ℚ), (1 : ℚ)])]))) ∧
    ∀ t, t ∈ [[0, 0], [0, 1], [0, 2], [1, 0], [1, 1], [1, 2]] ↔
      List.Forall₂ (· < ·) t (resolvedCubes ⟨.inr [2, 3], 2/10, none, none,
        none, none, none, none, none⟩
        (dimsOf [((0 : ℚ), [(0 : ℚ), (0 : ℚ)]),
          ((1 : ℚ), [(1 : ℚ), (1 : ℚ)])])) :=
  define_bins_cartesian_enumeration
    ⟨.inr [2, 3], 2/10, none, none, none, none, none, none, none⟩
    ⟨.inr [2, 3], 2/10, none,
      some [(1 : ℚ)/2, (1 : ℚ)/3],
      some [(1 : ℚ)/10, (1 : ℚ)/15],
      some [(7 : ℚ)/10, (7 : ℚ)/15],
      some [0, 0], some [1, 1], some [1, 2]⟩
    false [[0, 0], [0, 1], [0, 2], [1, 0], [1, 1], [1, 2]]
    [((0 : ℚ), [(0 : ℚ), (0 : ℚ)]), ((1 : ℚ), [(1 : ℚ), (1 : ℚ)])]
    (by decide)

/-- C4 (failing input): with an unbounded (`inf`) upper limit configured,
the first `define_bins` call resolves the upper bound to the data maximum
`9/10`, but — because `define_bins` overwrites the `inf` markers of
`self.limits` with `0` in place — the second call on the same data
resolves it to `0`: repeated calls do not return identical geometry. -/
theorem define_bins_second_call_differs :
    (define_bins (coverInit (.inl 10) (2/10) (some [(some 0, none)]) none
        none).1
      [((0 : ℚ), [(1 : ℚ)/10]), ((1 : ℚ), [(9 : ℚ)/10])]).state.endp =
      some [(9 : ℚ)/10] ∧
    (define_bins (define_bins (coverInit (.inl 10) (2/10)
        (some [(some 0, none)]) none none).1
        [((0 : ℚ), [(1 : ℚ)/10]), ((1 : ℚ), [(9 : ℚ)/10])]).state
      [((0 : ℚ), [(1 : ℚ)/10]), ((1 : ℚ), [(9 : ℚ)/10])]).state.endp =
      some [(0 : ℚ)] ∧
    (define_bins (define_bins (coverInit (.inl 10) (2/10)
        (some [(some 0, none)]) none none).1
        [((0 : ℚ), [(1 : ℚ)/10]), ((1 : ℚ), [(9 : ℚ)/10])]).state
      [((0 : ℚ), [(1 : ℚ)/10]), ((1 : ℚ), [(9 : ℚ)/10])]).state.endp ≠
    (define_bins (coverInit (.inl 10) (2/10) (some [(some 0, none)]) none
        none).1
      [((0 : ℚ), [(1 : ℚ)/10]), ((1 : ℚ), [(9 : ℚ)/10])]).state.endp := by
  refine ⟨by decide, by decide, by decide⟩

/-- C8 (failing input): `n_cubes=[2,3,4]` with 2-dimensional data makes
`define_bins` fail at the base-width division with a numpy broadcasting
error — the operand shapes `(2,)` and `(3,)` are incompatible — before it
ever reaches its own length-check assertion, so the raised error does not
name the expected and actual lengths (it is not `configLenMismatch 3 2`). -/
theorem define_bins_length_mismatch_broadcast_error :
    (define_bins (coverInit (.inr [2, 3, 4]) (2/10) none none none).1
      [((0 : ℚ), [(0 : ℚ), (0 : ℚ)]), ((1 : ℚ), [(1 : ℚ), (1 : ℚ)])]).out =
      .error .broadcastError ∧
    (define_bins (coverInit (.inr [2, 3, 4]) (2/10) none none none).1
      [((0 : ℚ), [(0 : ℚ), (0 : ℚ)]), ((1 : ℚ), [(1 : ℚ), (1 : ℚ)])]).out ≠
      .error (.configLenMismatch 3 2) := by
  refine ⟨by decide, by decide⟩

/-- C9 (counterexample): supplying the legacy synonym `overlap_perc=0.0`
emits the deprecation warning but the supplied value is *not* the one used
behaviorally — the canonical default `0.2` is stored instead, because the
resolution uses Python truthiness. -/
theorem legacy_zero_overlap_ignored :
    (coverInit (.inl 10) (2/10) none none (some 0)).2 = true ∧
    (coverInit (.inl 10) (2/10) none none (some 0)).1.perc_overlap = 2/10 ∧
    (coverInit (.inl 10) (2/10) none none (some 0)).1.perc_overlap ≠ 0 := by
  refine ⟨by decide, by decide, by decide⟩

/-- C9 (amended): the deprecation warning is emitted whenever either
legacy synonym is supplied, and the supplied synonym value is the one
stored — hence used by later `define_bins`/`find_entries` calls — exactly
when it is truthy (a nonzero scalar, a nonempty list, a nonzero overlap
fraction); a falsy supplied value is ignored in favor of the canonical
parameter. -/
theorem legacy_params_truthiness (nc : ℕ ⊕ List ℕ) (p : ℚ)
    (lim : Option (List (Option ℚ × Option ℚ))) (lnr : Option (ℕ ⊕ List ℕ))
    (lop : Option ℚ) :
    (coverInit nc p lim lnr lop).2 = (lop.isSome || lnr.isSome) ∧
    (∀ v, lnr = some v → truthyCubes v = true →
      (coverInit nc p lim lnr lop).1.n_cubes = v) ∧
    (∀ v, lnr = some v → truthyCubes v = false →
      (coverInit nc p lim lnr lop).1.n_cubes = nc) ∧
    (∀ q, lop = some q → q ≠ 0 →
      (coverInit nc p lim lnr lop).1.perc_overlap = q) ∧
    (∀ q, lop = some q → q = 0 →
      (coverInit nc p lim lnr lop).1.perc_overlap = p) := by
  refine ⟨rfl, ?_, ?_, ?_, ?_⟩
  · rintro v rfl hv
    simp [coverInit, hv]
  · rintro v rfl hv
    simp [coverInit, hv]
  · rintro q rfl hq
    simp [coverInit, hq]
  · rintro q rfl hq
    simp [coverInit, hq]

theorem legacy_params_truthiness_witness :
    (coverInit (.inl 10) (2/10) none (some (.inl 5)) (some 0)).1.n_cubes =
      .inl 5 ∧
    (coverInit (.inl 10) (2/10) none (some (.inl 5)) (some 0)).1.perc_overlap =
      2/10 ∧
    (coverInit (.inl 10) (2/10) none (some (.inl 5)) (some 0)).2 = true :=
  ⟨(legacy_params_truthiness (.inl 10) (2/10) none (some (.inl 5))
      (some 0)).2.1 (.inl 5) rfl (by decide),
   (legacy_params_truthiness (.inl 10) (2/10) none (some (.inl 5))
      (some 0)).2.2.2.2 0 rfl rfl,
   (legacy_params_truthiness (.inl 10) (2/10) none (some (.inl 5))
      (some 0)).1.trans (by decide)⟩

/-- C10: `find_entries` presupposes a prior `define_bins` call: on a
freshly constructed `Cover` all six geometry attributes are absent and
`find_entries` fails with an attribute error instead of returning rows,
whereas after any successful `define_bins` call the attributes are all
present and `find_entries` returns a row list. -/
theorem find_entries_requires_define_bins :
    (∀ (nc : ℕ ⊕ List ℕ) (p : ℚ) (lim : Option (List (Option ℚ × Option ℚ)))
      (lnr : Option (ℕ ⊕ List ℕ)) (lop : Option ℚ) (dta : Data)
      (cube : List ℕ),
      find_entries (coverInit nc p lim lnr lop).1 dta cube =
        .error .attributeError) ∧
    (∀ (s s1 : CoverState) (w : Bool) (coords : List (List ℕ))
      (dta dta2 : Data) (cube : List ℕ),
      define_bins s dta = ⟨s1, w, .ok coords⟩ →
      ∃ rows, find_entries s1 dta2 cube = Except.ok rows) := by
  constructor
  · intro nc p lim lnr lop dta cube
    rfl
  · intro s s1 w coords dta dta2 cube hdb
    obtain ⟨b2, o2, c2, l2, u2, hb2, ho2, hc2, hd2, he2, hdi2, _, _, _, _, _,
      _, _⟩ := define_bins_ok_inv s s1 w coords dta hdb
    cases hfe : find_entries s1 dta2 cube with
    | error e =>
        rw [find_entries, hb2, ho2, hc2, hd2, he2, hdi2] at hfe
        exact absurd hfe (by simp)
    | ok rows => exact ⟨rows, rfl⟩

theorem find_entries_requires_define_bins_witness :
    find_entries (coverInit (.inl 2) 0 none none none).1
      [((0 : ℚ), [(0 : ℚ)]), ((1 : ℚ), [(1 : ℚ)])] [0] =
      .error .attributeError ∧
    ∃ rows,
      find_entries
        ⟨.inl 2, 0, none, some [(1 : ℚ)/2], some [0], some [(1 : ℚ)/2],
          some [0], some [1], some [1]⟩
        [((0 : ℚ), [(0 : ℚ)]), ((1 : ℚ), [(1 : ℚ)])] [0] = Except.ok rows :=
  ⟨find_entries_requires_define_bins.1 (.inl 2) 0 none none none
      [((0 : ℚ), [(0 : ℚ)]), ((1 : ℚ), [(1 : ℚ)])] [0],
   find_entries_requires_define_bins.2
      (coverInit (.inl 2) 0 none none none).1
      ⟨.inl 2, 0, none, some [(1 : ℚ)/2], some [0], some [(1 : ℚ)/2],
        some [0], some [1], some [1]⟩
      false [[0], [1]]
      [((0 : ℚ), [(0 : ℚ)]), ((1 : ℚ), [(1 : ℚ)])]
      [((0 : ℚ), [(0 : ℚ)]), ((1 : ℚ), [(1 : ℚ)])] [0] (by decide)⟩

/-- C6 (counterexample): with configured limits `[[0.5, 2]]` on data whose
lens column ranges over `[0.1, 0.9]`, the resolved bounds fail to enclose
the data (the data minimum `0.1` falls below the resolved lower bound
`0.5`), yet `define_bins` does not warn — refuting the claim that the
warning fires whenever the bounds fail to enclose the data on some
dimension. -/
theorem bounds_warning_or_counterexample :
    colMin [((0 : ℚ), [(1 : ℚ)/10]), ((1 : ℚ), [(9 : ℚ)/10])] 0 <
      ((1 : ℚ)/2) ∧
    colMax [((0 : ℚ), [(1 : ℚ)/10]), ((1 : ℚ), [(9 : ℚ)/10])] 0 ≤ 2 ∧
    (define_bins (coverInit (.inl 10) (2/10)
        (some [(some ((1 : ℚ)/2), some 2)]) none none).1
      [((0 : ℚ), [(1 : ℚ)/10]), ((1 : ℚ), [(9 : ℚ)/10])]).warned = false := by
  refine ⟨by decide, by decide, by decide⟩

/-- C6 (amended): with explicit limits configured, `define_bins` emits the
bounds-coverage warning iff the data minimum falls strictly below the
resolved lower bound on at least one dimension AND the data maximum
strictly exceeds the resolved upper bound on at least one dimension (the
source combines the two `.all()` checks with `or` before negating, so a
violation on only one side never warns); computation proceeds using the
configured bounds regardless. -/
theorem bounds_warning_iff_both_sides_violated
    (s : CoverState) (L : List (Option ℚ × Option ℚ)) (r : Row)
    (rs : List Row) (hl : s.limits = some L)
    (hlen : L.length = dimsOf (r :: rs)) :
    (define_bins s (r :: rs)).warned = true ↔
      ((∃ j < dimsOf (r :: rs), colMin (r :: rs) j <
          ((L.getD j (none, none)).1).getD (colMin (r :: rs) j)) ∧
       (∃ j < dimsOf (r :: rs), ((L.getD j (none, none)).2).getD
          (colMax (r :: rs) j) < colMax (r :: rs) j)) := by
  simp only [dimsOf] at hlen ⊢
  set dims := nColsData (r :: rs) - 1 with hdims
  set mins := (List.range dims).map (fun j => colMin (r :: rs) j) with hmins
  set maxs := (List.range dims).map (fun j => colMax (r :: rs) j) with hmaxs
  set lowers := List.zipWith (fun pr m => pr.1.getD m) L mins with hlowers
  set uppers := List.zipWith (fun pr m => pr.2.getD m) L maxs with huppers
  have lmins : mins.length = dims := by
    rw [hmins, List.length_map, List.length_range]
  have lmaxs : maxs.length = dims := by
    rw [hmaxs, List.length_map, List.length_range]
  have llow : lowers.length = dims := by
    rw [hlowers, List.length_zipWith, hlen, lmins, Nat.min_self]
  have lupp : uppers.length = dims := by
    rw [huppers, List.length_zipWith, hlen, lmaxs, Nat.min_self]
  have hw : (define_bins s (r :: rs)).warned =
      !((List.zipWith (fun m lo => decide (lo ≤ m)) mins lowers).all id
        || (List.zipWith (fun mx hi => decide (mx ≤ hi)) maxs uppers).all id)
      := by
    rcases hn : s.n_cubes with n | l
    · simp only [define_bins, hl, hn, hlen, ← hdims, ← hmins, ← hmaxs,
        ← hlowers, ← huppers, eq_self_iff_true, if_true]
    · simp only [define_bins, hl, hn, hlen, ← hdims, ← hmins, ← hmaxs,
        ← hlowers, ← huppers, eq_self_iff_true, if_true]
      split
      · rfl
      · split <;> rfl
  rw [hw, Bool.not_eq_true', Bool.or_eq_false_iff]
  have hminj : ∀ j, j < dims → mins.getD j 0 = colMin (r :: rs) j := by
    intro j hj
    rw [hmins, getD_range_map _ _ _ _ hj]
  have hmaxj : ∀ j, j < dims → maxs.getD j 0 = colMax (r :: rs) j := by
    intro j hj
    rw [hmaxs, getD_range_map _ _ _ _ hj]
  have hlowj : ∀ j, j < dims → lowers.getD j 0 =
      ((L.getD j (none, none)).1).getD (colMin (r :: rs) j) := by
    intro j hj
    rw [hlowers, getD_zipWith _ _ _ j (none, none) 0 _
      (by rw [hlen]; exact hj) (by rw [lmins]; exact hj), hminj j hj]
  have huppj : ∀ j, j < dims → uppers.getD j 0 =
      ((L.getD j (none, none)).2).getD (colMax (r :: rs) j) := by
    intro j hj
    rw [huppers, getD_zipWith _ _ _ j (none, none) 0 _
      (by rw [hlen]; exact hj) (by rw [lmaxs]; exact hj), hmaxj j hj]
  have hA : ((List.zipWith (fun m lo => decide (lo ≤ m)) mins lowers).all id
      = false) ↔
      ∃ j < dims, colMin (r :: rs) j <
        ((L.getD j (none, none)).1).getD (colMin (r :: rs) j) := by
    rw [Bool.eq_false_iff, Ne, all_zipWith_iff _ _ _ dims 0 0 lmins llow]
    push_neg
    constructor
    · rintro ⟨j, hj, hfalse⟩
      refine ⟨j, hj, ?_⟩
      have hnot : ¬ lowers.getD j 0 ≤ mins.getD j 0 := by simpa using hfalse
      rw [← hlowj j hj, ← hminj j hj]
      exact not_le.mp hnot
    · rintro ⟨j, hj, hlt⟩
      refine ⟨j, hj, ?_⟩
      rw [← hlowj j hj, ← hminj j hj] at hlt
      simpa using not_le.mpr hlt
  have hB : ((List.zipWith (fun mx hi => decide (mx ≤ hi)) maxs uppers).all
      id = false) ↔
      ∃ j < dims, ((L.getD j (none, none)).2).getD (colMax (r :: rs) j) <
        colMax (r :: rs) j := by
    rw [Bool.eq_false_iff, Ne, all_zipWith_iff _ _ _ dims 0 0 lmaxs lupp]
    push_neg
    constructor
    · rintro ⟨j, hj, hfalse⟩
      refine ⟨j, hj, ?_⟩
      have hnot : ¬ maxs.getD j 0 ≤ uppers.getD j 0 := by simpa using hfalse
      rw [← huppj j hj, ← hmaxj j hj]
      exact not_le.mp hnot
    · rintro ⟨j, hj, hlt⟩
      refine ⟨j, hj, ?_⟩
      rw [← huppj j hj, ← hmaxj j hj] at hlt
      simpa using not_le.mpr hlt
  rw [hA, hB]

theorem bounds_warning_iff_both_sides_violated_witness :
    (define_bins (coverInit (.inl 10) (2/10)
        (some [(some ((1 : ℚ)/2), some ((6 : ℚ)/10))]) none none).1
      [((0 : ℚ), [(1 : ℚ)/10]), ((1 : ℚ), [(9 : ℚ)/10])]).warned = true :=
  (bounds_warning_iff_both_sides_violated
    (coverInit (.inl 10) (2/10)
      (some [(some ((1 : ℚ)/2), some ((6 : ℚ)/10))]) none none).1
    [(some ((1 : ℚ)/2), some ((6 : ℚ)/10))]
    ((0 : ℚ), [(1 : ℚ)/10]) [((1 : ℚ), [(9 : ℚ)/10])]
    rfl (by decide)).mpr
    ⟨⟨0, by decide, by decide⟩, ⟨0, by decide, by decide⟩⟩

theorem getD_replicate_zero (m j : ℕ) (hj : j < m) :
    (List.replicate m (0 : ℕ)).getD j 0 = 0 := by
  have hr : j < (List.replicate m (0 : ℕ)).length := by
    rwa [List.length_replicate]
  rw [List.getD_eq_getElem _ _ hr, List.getElem_replicate]

/-- C7: with `n_cubes = 1` (scalar), default data-derived bounds and a
nonnegative overlap fraction, `define_bins` on a nonempty table returns
exactly one coordinate — the all-zeros tuple — and `find_entries` on that
coordinate returns the entire input table, every row in order. -/
theorem define_bins_single_cube_all_rows (p : ℚ) (r : Row) (rs : List Row)
    (hp : 0 ≤ p) (s1 : CoverState) (w : Bool) (coords : List (List ℕ))
    (hdb : define_bins (coverInit (.inl 1) p none none none).1 (r :: rs) =
      ⟨s1, w, .ok coords⟩) :
    coords = [List.replicate (dimsOf (r :: rs)) 0] ∧
    find_entries s1 (r :: rs) (List.replicate (dimsOf (r :: rs)) 0) =
      .ok (r :: rs) := by
  rw [define_bins_none_inl 1 _ r rs rfl rfl] at hdb
  simp only [BinsResult.mk.injEq, Except.ok.injEq] at hdb
  obtain ⟨hs1, _, hcoords⟩ := hdb
  subst hs1 hcoords
  constructor
  · exact (cartProd_replicate_one _).symm ▸ rfl
  · set dta := r :: rs with hdta
    set dims := dimsOf dta with hdims
    rw [find_entries_spec _ dta (List.replicate dims 0)
      (baseNone 1 dta) (ovNone p 1 dta) (chNone p 1 dta)
      (colsMin dta) (colsMax dta) dims
      rfl rfl rfl rfl rfl rfl
      (by rw [baseNone, List.length_map, List.length_range])
      (by rw [ovNone, List.length_map, List.length_range])
      (by rw [chNone, List.length_map, List.length_range])
      (by rw [colsMin, List.length_map, List.length_range])
      (by rw [colsMax, List.length_map, List.length_range])
      (by rw [List.length_replicate])]
    refine congrArg Except.ok (List.filter_eq_self.mpr ?_)
    intro a ha
    rw [decide_eq_true_eq]
    intro j hj
    have hm : (colsMin dta).getD j 0 = colMin dta j := by
      rw [colsMin, ← hdims, getD_range_map _ _ _ _ hj]
    have hM : (colsMax dta).getD j 0 = colMax dta j := by
      rw [colsMax, ← hdims, getD_range_map _ _ _ _ hj]
    have hb : (baseNone 1 dta).getD j 0 = colMax dta j - colMin dta j := by
      rw [baseNone, ← hdims, getD_range_map _ _ _ _ hj]
      push_cast
      rw [div_one]
    have ho : (ovNone p 1 dta).getD j 0 = p * (colMax dta j - colMin dta j)
        := by
      rw [ovNone, ← hdims, getD_range_map _ _ _ _ hj]
      push_cast
      rw [div_one]
    have hc : (chNone p 1 dta).getD j 0 = (colMax dta j - colMin dta j)
        + p * (colMax dta j - colMin dta j) * 2 := by
      rw [chNone, ← hdims, getD_range_map _ _ _ _ hj]
      push_cast
      rw [div_one]
    have hcu : (List.replicate dims (0 : ℕ)).getD j 0 = 0 :=
      getD_replicate_zero dims j hj
    have hmM : colMin dta j ≤ colMax dta j :=
      colMin_le_colMax dta j (by rw [hdta]; exact List.cons_ne_nil r rs)
    have hov : 0 ≤ p * (colMax dta j - colMin dta j) :=
      mul_nonneg hp (by linarith)
    have hxm : colMin dta j ≤ lens a j := colMin_le_lens dta j a ha
    have hxM : lens a j ≤ colMax dta j := lens_le_colMax dta j a ha
    constructor
    · rw [clippedLower, clip, hm, hM, hb, ho, hcu]
      push_cast
      rw [zero_mul, add_zero]
      refine le_trans (min_le_right _ _) ?_
      refine max_le hxm (by linarith)
    · rw [clippedUpper, clip, hm, hM, hb, ho, hc, hcu]
      push_cast
      rw [zero_mul, add_zero]
      refine le_min hxM ?_
      refine le_trans ?_ (le_max_right _ _)
      linarith

theorem define_bins_single_cube_all_rows_witness :
    [[0]] = [List.replicate
      (dimsOf [((0 : ℚ), [(0 : ℚ)]), ((1 : ℚ), [(1 : ℚ)])]) 0] ∧
    find_entries
      ⟨.inl 1, (1 : ℚ)/5, none, some [1], some [(1 : ℚ)/5],
        some [(7 : ℚ)/5], some [0], some [1], some [1]⟩
      [((0 : ℚ), [(0 : ℚ)]), ((1 : ℚ), [(1 : ℚ)])]
      (List.replicate
        (dimsOf [((0 : ℚ), [(0 : ℚ)]), ((1 : ℚ), [(1 : ℚ)])]) 0) =
      .ok [((0 : ℚ), [(0 : ℚ)]), ((1 : ℚ), [(1 : ℚ)])] :=
  define_bins_single_cube_all_rows ((1 : ℚ)/5)
    ((0 : ℚ), [(0 : ℚ)]) [((1 : ℚ), [(1 : ℚ)])] (by decide)
    ⟨.inl 1, (1 : ℚ)/5, none, some [1], some [(1 : ℚ)/5],
      some [(7 : ℚ)/5], some [0], some [1], some [1]⟩
    false [[0]] (by decide)

/-- The bin index a lens value `x` falls into along one dimension with
data-derived bounds `[m, M]` and `n` cubes: `⌊(x-m)/base⌋` capped at
`n-1`. -/
def cubeIdx (n : ℕ) (m M x : ℚ) : ℕ :=
  min (n - 1) (Int.toNat ⌊(x - m) / ((M - m) / (n : ℚ))⌋)

theorem cubeIdx_lt (n : ℕ) (hn : 1 ≤ n) (m M x : ℚ) : cubeIdx n m M x < n :=
  Nat.lt_of_le_of_lt (min_le_left _ _) (Nat.sub_lt hn Nat.one_pos)

/-- On each dimension, the bin with index `cubeIdx` contains the lens
value: the value lies between the clipped bounds of that bin. -/
theorem cube_bounds (n : ℕ) (hn : 1 ≤ n) (p : ℚ) (hp : 0 ≤ p) (m M x : ℚ)
    (hm : m ≤ x) (hM : x ≤ M) :
    clip (m + (cubeIdx n m M x : ℚ) * ((M - m) / (n : ℚ))
        - p * ((M - m) / (n : ℚ))) m M ≤ x ∧
    x ≤ clip (m + (cubeIdx n m M x : ℚ) * ((M - m) / (n : ℚ))
        - p * ((M - m) / (n : ℚ))
        + ((M - m) / (n : ℚ) + p * ((M - m) / (n : ℚ)) * 2)) m M := by
  set b : ℚ := (M - m) / (n : ℚ) with hbdef
  have hn0 : (0 : ℚ) < (n : ℚ) := by
    exact_mod_cast Nat.lt_of_lt_of_le Nat.zero_lt_one hn
  have hb0 : 0 ≤ b := div_nonneg (by linarith) (le_of_lt hn0)
  have hnb : (n : ℚ) * b = M - m := by
    rw [hbdef, mul_div_cancel₀ _ (ne_of_gt hn0)]
  have hpb : 0 ≤ p * b := mul_nonneg hp hb0
  set i : ℕ := cubeIdx n m M x with hidef
  have hkey : (i : ℚ) * b ≤ x - m ∧ x - m ≤ ((i : ℚ) + 1) * b := by
    rcases eq_or_lt_of_le hb0 with hb | hb
    · -- degenerate dimension: zero base width
      have hMm : M - m = 0 := by rw [← hnb, ← hb, mul_zero]
      have hxm : x = m := by linarith
      constructor
      · rw [← hb, mul_zero, hxm, sub_self]
      · rw [← hb, mul_zero, hxm, sub_self]
    · have ht0 : 0 ≤ (x - m) / b := div_nonneg (by linarith) (le_of_lt hb)
      have hk0 : (0 : ℤ) ≤ ⌊(x - m) / b⌋ := Int.floor_nonneg.mpr ht0
      constructor
      · have hile : (i : ℤ) ≤ ⌊(x - m) / b⌋ := by
          have : i ≤ (⌊(x - m) / b⌋).toNat := min_le_right _ _
          omega
        have hiq : (i : ℚ) ≤ (x - m) / b :=
          le_trans (by exact_mod_cast hile) (Int.floor_le _)
        calc (i : ℚ) * b ≤ ((x - m) / b) * b := by
              exact mul_le_mul_of_nonneg_right hiq (le_of_lt hb)
          _ = x - m := div_mul_cancel₀ _ (ne_of_gt hb)
      · rcases le_or_lt (⌊(x - m) / b⌋).toNat (n - 1) with hcase | hcase
        · have hieq : i = (⌊(x - m) / b⌋).toNat := min_eq_right hcase
          have hflr : (x - m) / b < (i : ℚ) + 1 := by
            have h1 : (x - m) / b < (⌊(x - m) / b⌋ : ℚ) + 1 :=
              Int.lt_floor_add_one _
            have h2 : ((⌊(x - m) / b⌋ : ℤ) : ℚ) = (i : ℚ) := by
              rw [hieq]
              exact_mod_cast (Int.toNat_of_nonneg hk0).symm
            rwa [h2] at h1
          have := (div_lt_iff₀ hb).mp hflr
          linarith
        · have hieq : i = n - 1 := min_eq_left (le_of_lt hcase)
          have hcast : ((i : ℚ) + 1) = (n : ℚ) := by
            rw [hieq]
            have : ((n - 1 : ℕ) : ℚ) = (n : ℚ) - 1 := by
              push_cast [Nat.cast_sub hn]
              ring
            rw [this]
            ring
          rw [hcast, hnb]
          linarith
  obtain ⟨hlo, hhi⟩ := hkey
  constructor
  · rw [clip]
    refine le_trans (min_le_right _ _) (max_le hm ?_)
    linarith
  · rw [clip]
    refine le_min hM (le_trans ?_ (le_max_right _ _))
    linarith

/-- C3: with default bounds (`limits=None`, bounds derived as the data's
per-dimension minima and maxima), scalar `n_cubes ≥ 1` and nonnegative
overlap, every row of a nonempty data table is contained in the
`find_entries` result of at least one coordinate returned by
`define_bins`. -/
theorem define_bins_coverage (n : ℕ) (p : ℚ) (r0 : Row) (rs : List Row)
    (hn : 1 ≤ n) (hp : 0 ≤ p) (s1 : CoverState) (w : Bool)
    (coords : List (List ℕ))
    (hdb : define_bins (coverInit (.inl n) p none none none).1 (r0 :: rs) =
      ⟨s1, w, .ok coords⟩)
    (a : Row) (ha : a ∈ r0 :: rs) :
    ∃ cube ∈ coords, ∃ rows,
      find_entries s1 (r0 :: rs) cube = Except.ok rows ∧ a ∈ rows := by
  rw [define_bins_none_inl n _ r0 rs rfl rfl] at hdb
  simp only [BinsResult.mk.injEq, Except.ok.injEq] at hdb
  obtain ⟨hs1, _, hcoords⟩ := hdb
  subst hs1 hcoords
  set dta := r0 :: rs with hdta
  set dims := dimsOf dta with hdims
  set cube := (List.range dims).map
    (fun j => cubeIdx n (colMin dta j) (colMax dta j) (lens a j)) with hcube
  have hmem : cube ∈ cartProd (List.replicate dims n) := by
    rw [mem_cartProd]
    rw [List.forall₂_iff_get]
    refine ⟨by rw [hcube]; simp, ?_⟩
    intro i h1 h2
    rw [List.get_eq_getElem, List.get_eq_getElem, List.getElem_replicate,
      List.getElem_map, List.getElem_range]
    exact cubeIdx_lt n hn _ _ _
  refine ⟨cube, hmem, _, find_entries_spec _ dta cube
    (baseNone n dta) (ovNone p n dta) (chNone p n dta)
    (colsMin dta) (colsMax dta) dims
    rfl rfl rfl rfl rfl rfl
    (by rw [baseNone, List.length_map, List.length_range])
    (by rw [ovNone, List.length_map, List.length_range])
    (by rw [chNone, List.length_map, List.length_range])
    (by rw [colsMin, List.length_map, List.length_range])
    (by rw [colsMax, List.length_map, List.length_range])
    (by rw [hcube, List.length_map, List.length_range]), ?_⟩
  refine List.mem_filter.mpr ⟨ha, ?_⟩
  rw [decide_eq_true_eq]
  intro j hj
  have hm : (colsMin dta).getD j 0 = colMin dta j := by
    rw [colsMin, ← hdims, getD_range_map _ _ _ _ hj]
  have hM : (colsMax dta).getD j 0 = colMax dta j := by
    rw [colsMax, ← hdims, getD_range_map _ _ _ _ hj]
  have hb : (baseNone n dta).getD j 0 =
      (colMax dta j - colMin dta j) / (n : ℚ) := by
    rw [baseNone, ← hdims, getD_range_map _ _ _ _ hj]
  have ho : (ovNone p n dta).getD j 0 =
      p * ((colMax dta j - colMin dta j) / (n : ℚ)) := by
    rw [ovNone, ← hdims, getD_range_map _ _ _ _ hj]
  have hc : (chNone p n dta).getD j 0 =
      (colMax dta j - colMin dta j) / (n : ℚ)
        + p * ((colMax dta j - colMin dta j) / (n : ℚ)) * 2 := by
    rw [chNone, ← hdims, getD_range_map _ _ _ _ hj]
  have hcu : cube.getD j 0 =
      cubeIdx n (colMin dta j) (colMax dta j) (lens a j) := by
    rw [hcube, getD_range_map _ _ _ _ hj]
  have hxm : colMin dta j ≤ lens a j := colMin_le_lens dta j a ha
  have hxM : lens a j ≤ colMax dta j := lens_le_colMax dta j a ha
  obtain ⟨h1, h2⟩ := cube_bounds n hn p hp (colMin dta j) (colMax dta j)
    (lens a j) hxm hxM
  constructor
  · rw [clippedLower, hm, hM, hb, ho, hcu]
    exact h1
  · rw [clippedUpper, hm, hM, hb, ho, hc, hcu]
    exact h2

theorem define_bins_coverage_witness :
    ∃ cube ∈ [[0], [1]], ∃ rows,
      find_entries
        ⟨.inl 2, 0, none, some [(1 : ℚ)/2], some [0], some [(1 : ℚ)/2],
          some [0], some [1], some [1]⟩
        [((0 : ℚ), [(0 : ℚ)]), ((1 : ℚ), [(1 : ℚ)])] cube =
        Except.ok rows ∧ ((0 : ℚ), [(0 : ℚ)]) ∈ rows :=
  define_bins_coverage 2 0 ((0 : ℚ), [(0 : ℚ)]) [((1 : ℚ), [(1 : ℚ)])]
    (by decide) (by decide)
    ⟨.inl 2, 0, none, some [(1 : ℚ)/2], some [0], some [(1 : ℚ)/2],
      some [0], some [1], some [1]⟩
    false [[0], [1]] (by decide)
    ((0 : ℚ), [(0 : ℚ)]) (by decide)

theorem clip_mono (v w lo hi : ℚ) (h : v ≤ w) :
    clip v lo hi ≤ clip w lo hi :=
  min_le_min (le_refl hi) (max_le_max (le_refl lo) h)

/-- C5: holding the data and scalar `n_cubes ≥ 1` fixed while increasing
`perc_overlap` never shrinks the result of `find_entries` for any single
coordinate — the smaller-overlap result is a subset (and no longer) —
and never shrinks the number of rows common to the results of any two
coordinates (in particular adjacent ones). -/
theorem find_entries_overlap_monotone (n : ℕ) (p p' : ℚ) (r0 : Row)
    (rs : List Row) (hn : 1 ≤ n) (hpp : p ≤ p')
    (s1 s1' : CoverState) (w w' : Bool) (coords coords' : List (List ℕ))
    (hdb : define_bins (coverInit (.inl n) p none none none).1 (r0 :: rs) =
      ⟨s1, w, .ok coords⟩)
    (hdb' : define_bins (coverInit (.inl n) p' none none none).1 (r0 :: rs) =
      ⟨s1', w', .ok coords'⟩)
    (c1 c2 : List ℕ) (hc1 : c1 ∈ coords) (hc2 : c2 ∈ coords)
    (rows1 rows2 rows1' rows2' : Data)
    (h1 : find_entries s1 (r0 :: rs) c1 = .ok rows1)
    (h2 : find_entries s1 (r0 :: rs) c2 = .ok rows2)
    (h1' : find_entries s1' (r0 :: rs) c1 = .ok rows1')
    (h2' : find_entries s1' (r0 :: rs) c2 = .ok rows2') :
    (∀ r ∈ rows1, r ∈ rows1') ∧ rows1.length ≤ rows1'.length ∧
    ((r0 :: rs).filter
        (fun r => decide (r ∈ rows1 ∧ r ∈ rows2))).length ≤
      ((r0 :: rs).filter
        (fun r => decide (r ∈ rows1' ∧ r ∈ rows2'))).length := by
  rw [define_bins_none_inl n _ r0 rs rfl rfl] at hdb hdb'
  simp only [BinsResult.mk.injEq, Except.ok.injEq] at hdb hdb'
  obtain ⟨hs1, -, hcoords⟩ := hdb
  obtain ⟨hs1', -, hcoords'⟩ := hdb'
  subst hs1 hs1' hcoords
  set dta := r0 :: rs with hdta
  set dims := dimsOf dta with hdims
  have hlen1 : c1.length = dims := by
    rw [cube_length_of_mem_cartProd _ _ hc1, List.length_replicate]
  have hlen2 : c2.length = dims := by
    rw [cube_length_of_mem_cartProd _ _ hc2, List.length_replicate]
  have hspec : ∀ (q : ℚ) (cube : List ℕ) (rows : Data),
      cube.length = dims →
      find_entries
        ⟨.inl n, q, none, some (baseNone n dta), some (ovNone q n dta),
          some (chNone q n dta), some (colsMin dta), some (colsMax dta),
          some (diListOf dta)⟩ dta cube = .ok rows →
      rows = dta.filter (fun r => decide (inBin dims (colsMin dta)
        (colsMax dta) (baseNone n dta) (ovNone q n dta) (chNone q n dta)
        cube r)) := by
    intro q cube rows hculen hq
    rw [find_entries_spec _ dta cube (baseNone n dta) (ovNone q n dta)
      (chNone q n dta) (colsMin dta) (colsMax dta) dims
      rfl rfl rfl rfl rfl rfl
      (by rw [baseNone, List.length_map, List.length_range])
      (by rw [ovNone, List.length_map, List.length_range])
      (by rw [chNone, List.length_map, List.length_range])
      (by rw [colsMin, List.length_map, List.length_range])
      (by rw [colsMax, List.length_map, List.length_range])
      hculen] at hq
    exact (Except.ok.inj hq).symm
  have e1 := hspec p c1 rows1 hlen1 h1
  have e2 := hspec p c2 rows2 hlen2 h2
  have e1' := hspec p' c1 rows1' hlen1 h1'
  have e2' := hspec p' c2 rows2' hlen2 h2'
  have hne : dta ≠ [] := by rw [hdta]; exact List.cons_ne_nil r0 rs
  have hmono : ∀ (cube : List ℕ) (r : Row),
      decide (inBin dims (colsMin dta) (colsMax dta) (baseNone n dta)
        (ovNone p n dta) (chNone p n dta) cube r) = true →
      decide (inBin dims (colsMin dta) (colsMax dta) (baseNone n dta)
        (ovNone p' n dta) (chNone p' n dta) cube r) = true := by
    intro cube r hr
    rw [decide_eq_true_eq] at hr ⊢
    intro j hj
    obtain ⟨hl, hu⟩ := hr j hj
    have hb : (baseNone n dta).getD j 0 =
        (colMax dta j - colMin dta j) / (n : ℚ) := by
      rw [baseNone, ← hdims, getD_range_map _ _ _ _ hj]
    have hop : (ovNone p n dta).getD j 0 =
        p * ((colMax dta j - colMin dta j) / (n : ℚ)) := by
      rw [ovNone, ← hdims, getD_range_map _ _ _ _ hj]
    have hop' : (ovNone p' n dta).getD j 0 =
        p' * ((colMax dta j - colMin dta j) / (n : ℚ)) := by
      rw [ovNone, ← hdims, getD_range_map _ _ _ _ hj]
    have hcp : (chNone p n dta).getD j 0 =
        (colMax dta j - colMin dta j) / (n : ℚ)
          + p * ((colMax dta j - colMin dta j) / (n : ℚ)) * 2 := by
      rw [chNone, ← hdims, getD_range_map _ _ _ _ hj]
    have hcp' : (chNone p' n dta).getD j 0 =
        (colMax dta j - colMin dta j) / (n : ℚ)
          + p' * ((colMax dta j - colMin dta j) / (n : ℚ)) * 2 := by
      rw [chNone, ← hdims, getD_range_map _ _ _ _ hj]
    have hn0 : (0 : ℚ) < (n : ℚ) := by
      exact_mod_cast Nat.lt_of_lt_of_le Nat.zero_lt_one hn
    have hb0 : 0 ≤ (colMax dta j - colMin dta j) / (n : ℚ) := by
      refine div_nonneg ?_ (le_of_lt hn0)
      have := colMin_le_colMax dta j hne
      linarith
    have hoo : p * ((colMax dta j - colMin dta j) / (n : ℚ)) ≤
        p' * ((colMax dta j - colMin dta j) / (n : ℚ)) :=
      mul_le_mul_of_nonneg_right hpp hb0
    constructor
    · refine le_trans ?_ hl
      rw [clippedLower, clippedLower, hop, hop']
      refine clip_mono _ _ _ _ ?_
      linarith
    · refine le_trans hu ?_
      rw [clippedUpper, clippedUpper, hop, hop', hcp, hcp']
      refine clip_mono _ _ _ _ ?_
      linarith
  have hsub1 : ∀ r, r ∈ rows1 → r ∈ rows1' := by
    intro r hr
    rw [e1] at hr
    rw [e1']
    obtain ⟨hrd, hrp⟩ := List.mem_filter.mp hr
    exact List.mem_filter.mpr ⟨hrd, hmono c1 r hrp⟩
  have hsub2 : ∀ r, r ∈ rows2 → r ∈ rows2' := by
    intro r hr
    rw [e2] at hr
    rw [e2']
    obtain ⟨hrd, hrp⟩ := List.mem_filter.mp hr
    exact List.mem_filter.mpr ⟨hrd, hmono c2 r hrp⟩
  refine ⟨hsub1, ?_, ?_⟩
  · rw [e1, e1']
    exact (List.monotone_filter_right dta (hmono c1)).length_le
  · refine (List.monotone_filter_right dta ?_).length_le
    intro r hr
    rw [decide_eq_true_eq] at hr ⊢
    exact ⟨hsub1 r hr.1, hsub2 r hr.2⟩

theorem find_entries_overlap_monotone_witness :
    (∀ r ∈ [((0 : ℚ), [(0 : ℚ)])], r ∈ [((0 : ℚ), [(0 : ℚ)])]) ∧
    ([((0 : ℚ), [(0 : ℚ)])] : Data).length ≤
      ([((0 : ℚ), [(0 : ℚ)])] : Data).length ∧
    (([((0 : ℚ), [(0 : ℚ)]), ((1 : ℚ), [(1 : ℚ)])] : Data).filter
        (fun r => decide (r ∈ ([((0 : ℚ), [(0 : ℚ)])] : Data) ∧
          r ∈ ([((1 : ℚ), [(1 : ℚ)])] : Data)))).length ≤
      (([((0 : ℚ), [(0 : ℚ)]), ((1 : ℚ), [(1 : ℚ)])] : Data).filter
        (fun r => decide (r ∈ ([((0 : ℚ), [(0 : ℚ)])] : Data) ∧
          r ∈ ([((1 : ℚ), [(1 : ℚ)])] : Data)))).length :=
  find_entries_overlap_monotone 2 0 ((1 : ℚ)/2)
    ((0 : ℚ), [(0 : ℚ)]) [((1 : ℚ), [(1 : ℚ)])]
    (by decide) (by decide)
    ⟨.inl 2, 0, none, some [(1 : ℚ)/2], some [0], some [(1 : ℚ)/2],
      some [0], some [1], some [1]⟩
    ⟨.inl 2, (1 : ℚ)/2, none, some [(1 : ℚ)/2], some [(1 : ℚ)/4],
      some [1], some [0], some [1], some [1]⟩
    false false [[0], [1]] [[0], [1]]
    (by decide) (by decide)
    [0] [1] (by decide) (by decide)
    [((0 : ℚ), [(0 : ℚ)])] [((1 : ℚ), [(1 : ℚ)])]
    [((0 : ℚ), [(0 : ℚ)])] [((1 : ℚ), [(1 : ℚ)])]
    (by decide) (by decide) (by decide) (by decide)

end KMCover

